import Mathlib

/-!
Verification development for the rotating, self-archiving log sink of the
tklog repository. The Rust source in src/lib.rs is shallowly embedded here:
pure helpers (`passtimemode`, `getbackup_with_time`, `parse_and_format_log`)
become Lean functions, and the filesystem-mutating compression routines
(`gzip`, `async_gzip`) become state-passing functions over an explicit
filesystem map together with an oracle recording which I/O steps fail.
-/

/-- Calendar time as chrono exposes it: `year-month-day hour:minute:second`.
Used for both `DateTime::from_timestamp` results (UTC) and the ambient
`Local::now()` value, which the embedding takes as an explicit input. -/
structure CalTime where
  year : Nat
  month : Nat
  day : Nat
  hour : Nat
  minute : Nat
  second : Nat
deriving DecidableEq, Repr

/-- Civil-calendar date (year, month, day) from a count of days since the Unix
epoch 1970-01-01, proleptic Gregorian. This is the conversion chrono performs
inside `DateTime::from_timestamp` for nonnegative seconds. -/
def civilFromDays (days : Nat) : Nat × Nat × Nat :=
  let z := days + 719468
  let era := z / 146097
  let doe := z % 146097
  let yoe := (doe - doe / 1460 + doe / 36524 - doe / 146096) / 365
  let doy := doe - (365 * yoe + yoe / 4 - yoe / 100)
  let mp := (5 * doy + 2) / 153
  let d := doy - (153 * mp + 2) / 5 + 1
  let m := if mp < 10 then mp + 3 else mp - 9
  let y := yoe + era * 400
  (if m ≤ 2 then y + 1 else y, m, d)

/-- Embedding of chrono's `DateTime::from_timestamp(sec, 0)` (UTC calendar
fields of a nonnegative Unix timestamp). -/
def dtFromTimestamp (sec : Nat) : CalTime :=
  let days := sec / 86400
  let rem := sec % 86400
  let ymd := civilFromDays days
  { year := ymd.1, month := ymd.2.1, day := ymd.2.2,
    hour := rem / 3600, minute := rem % 3600 / 60, second := rem % 60 }

/-- The `MODE` enum of src/lib.rs: time-based rotation granularity. -/
inductive MODE where
  | HOUR
  | DAY
  | MONTH
deriving DecidableEq, Repr

/-- Embedding of `passtimemode` from src/lib.rs: builds the opening time's UTC
calendar fields from `startsec` and compares, per mode, a single calendar
field of the ambient `Local::now()` value (here the explicit `now` input)
against the same field of the opening time, with strict greater-than. -/
def passtimemode (startsec : Nat) (timemode : MODE) (now : CalTime) : Bool :=
  let start_time := dtFromTimestamp startsec
  match timemode with
  | MODE.HOUR => decide (start_time.hour < now.hour)
  | MODE.DAY => decide (start_time.day < now.day)
  | MODE.MONTH => decide (start_time.month < now.month)

/-- Decimal rendering of a natural number, zero-padded on the left to the
given width, as chrono's zero-padded format specifiers produce. -/
def padNum (width : Nat) (n : Nat) : String :=
  let s := toString n
  String.mk (List.replicate (width - s.length) '0') ++ s

/-- Embedding of `getbackup_with_time` from src/lib.rs: formats the opening
timestamp `startsec` with chrono format strings `%Y%m%d%H` (hour mode),
`%Y%m%d` (day mode) or `%Y%m` (month mode). -/
def getbackup_with_time (startsec : Nat) (timemode : MODE) : String :=
  let start_time := dtFromTimestamp startsec
  match timemode with
  | MODE.HOUR =>
      padNum 4 start_time.year ++ padNum 2 start_time.month ++
        padNum 2 start_time.day ++ padNum 2 start_time.hour
  | MODE.DAY =>
      padNum 4 start_time.year ++ padNum 2 start_time.month ++
        padNum 2 start_time.day
  | MODE.MONTH =>
      padNum 4 start_time.year ++ padNum 2 start_time.month

/-- The stamp format exactly as the spec words it: `YYYYMMDDHH` for hourly,
`YYYYMMDD` for daily, `YYYYMM` for monthly, built from given calendar
fields (4-digit year, 2-digit month, day, hour). -/
def stampSpec (t : CalTime) (timemode : MODE) : String :=
  match timemode with
  | MODE.HOUR => padNum 4 t.year ++ padNum 2 t.month ++ padNum 2 t.day ++ padNum 2 t.hour
  | MODE.DAY => padNum 4 t.year ++ padNum 2 t.month ++ padNum 2 t.day
  | MODE.MONTH => padNum 4 t.year ++ padNum 2 t.month

/-- Filesystem model: an association list from paths to byte contents
(bytes as naturals). Lookup takes the first matching entry. -/
abbrev Fs := List (String × List Nat)

/-- Content of the file at path `p`, or `none` when no such file exists. -/
def fsLookup (fs : Fs) (p : String) : Option (List Nat) :=
  match fs with
  | [] => none
  | (q, c) :: rest => if q = p then some c else fsLookup rest p

/-- Create or overwrite the file at path `p` with content `c`. -/
def fsSet (fs : Fs) (p : String) (c : List Nat) : Fs :=
  match fs with
  | [] => [(p, c)]
  | (q, d) :: rest => if q = p then (p, c) :: rest else (q, d) :: fsSet rest p c

/-- Delete the file at path `p`. -/
def fsRemove (fs : Fs) (p : String) : Fs :=
  match fs with
  | [] => []
  | (q, d) :: rest => if q = p then fsRemove rest p else (q, d) :: fsRemove rest p

/-- Result of a Rust `io::Result<()>` call: `ok` or `err`. -/
inductive RustResult where
  | ok
  | err
deriving DecidableEq, Repr

/-- Oracle fixing which fallible I/O steps of a compression run succeed.
`openOk`: opening/reading the source beyond its mere existence; `copyOk`:
`io::copy` / `read_to_end` into the encoder; `finishOk`: `encoder.finish()`;
`createOk`: `File::create` of the output; `writeFail = some k`: the final
`write_all` fails after `k` bytes reached the file, `none`: it succeeds. -/
structure IoOracle where
  openOk : Bool
  copyOk : Bool
  finishOk : Bool
  createOk : Bool
  writeFail : Option Nat
deriving DecidableEq, Repr

/-- Embedding of `gzip` from src/lib.rs. The flate2 codec is an external
collaborator, abstracted as `encode`. Mirrors the source step by step: open
the source file (error if absent or `openOk` is false), `io::copy` into the
encoder, `finish`, `File::create` of `filename ++ ".gz"` (which truncates the
output to empty), then `write_all`; the original is removed only when the
ack of `write_all` is ok, and the function returns `Ok(())` in either case. -/
def gzip (encode : List Nat → List Nat) (o : IoOracle) (fs : Fs) (filename : String) :
    RustResult × Fs :=
  match fsLookup fs filename with
  | none => (RustResult.err, fs)
  | some content =>
    if o.openOk then
      if o.copyOk then
        if o.finishOk then
          let compressed := encode content
          let output_filename := filename ++ ".gz"
          if o.createOk then
            let fs1 := fsSet fs output_filename []
            match o.writeFail with
            | some k => (RustResult.ok, fsSet fs1 output_filename (compressed.take k))
            | none => (RustResult.ok, fsRemove (fsSet fs1 output_filename compressed) filename)
          else (RustResult.err, fs)
        else (RustResult.err, fs)
      else (RustResult.err, fs)
    else (RustResult.err, fs)

/-- Embedding of `async_gzip` from src/lib.rs. Differs from `gzip` in that a
failure of the final `write_all` is propagated with `?` (so the function
returns an error) rather than inspected; removal of the original still only
happens after a fully successful write. -/
def async_gzip (encode : List Nat → List Nat) (o : IoOracle) (fs : Fs) (filename : String) :
    RustResult × Fs :=
  match fsLookup fs filename with
  | none => (RustResult.err, fs)
  | some content =>
    if o.openOk then
      if o.copyOk then
        if o.finishOk then
          let compressed := encode content
          let output_filename := filename ++ ".gz"
          if o.createOk then
            let fs1 := fsSet fs output_filename []
            match o.writeFail with
            | some k => (RustResult.err, fsSet fs1 output_filename (compressed.take k))
            | none => (RustResult.ok, fsRemove (fsSet fs1 output_filename compressed) filename)
          else (RustResult.err, fs)
        else (RustResult.err, fs)
      else (RustResult.err, fs)
    else (RustResult.err, fs)

/-- The opening brace character. -/
def lbrace : Char := Char.ofNat 123

/-- The closing brace character. -/
def rbrace : Char := Char.ofNat 125

/-- The placeholder substitution performed when a placeholder closes in
`parse_and_format_log`: the four known names map to their values, every
other accumulated name contributes nothing. -/
def phSubst (level time file message : List Char) (ph : List Char) : List Char :=
  if ph = "level".data then level
  else if ph = "time".data then time
  else if ph = "file".data then file
  else if ph = "message".data then message
  else []

/-- The character loop of `parse_and_format_log` from src/lib.rs, over the
remaining format characters, the `in_placeholder` flag, the `placeholder`
accumulator and the `result` accumulator. -/
def pflGo (level time file message : List Char) (cs : List Char) (inPh : Bool)
    (ph : List Char) (result : List Char) : List Char :=
  match cs with
  | [] => result
  | c :: rest =>
    if inPh then
      if c = rbrace then
        pflGo level time file message rest false []
          (result ++ phSubst level time file message ph)
      else
        pflGo level time file message rest true (ph ++ [c]) result
    else
      if c = lbrace then
        pflGo level time file message rest true ph result
      else
        pflGo level time file message rest false ph (result ++ [c])

/-- Embedding of `parse_and_format_log` from src/lib.rs as a function on
character lists: starts outside any placeholder with empty accumulators. -/
def parseFmt (fmt level time file message : List Char) : List Char :=
  pflGo level time file message fmt false [] []

/-- Embedding of `parse_and_format_log` from src/lib.rs at `String` type. -/
def parse_and_format_log (format_str level time file message : String) : String :=
  String.mk (parseFmt format_str.data level.data time.data file.data message.data)

/-- Modelled from the spec: the size-mode rotation check is not under src/
(only the time-mode check `passtimemode` is); per the spec, rotation is due
when `current_size + about_to_write_len` would exceed the configured
threshold. -/
def passsizemode (current_size : Nat) (threshold : Nat) (len : Nat) : Bool :=
  decide (threshold < current_size + len)

/-- Modelled from the spec: the state of a size-mode sink — configured byte
threshold, bytes written since open, content of the active file, and the
list of archived (rotated-out) file contents, oldest first. -/
structure SizeSink where
  threshold : Nat
  current_size : Nat
  active : List Nat
  archives : List (List Nat)
deriving DecidableEq, Repr

/-- Modelled from the spec: the FileSink write protocol in size mode — consult
the rotation check with the pending write length; on a positive decision
archive the active file and start a fresh one before appending; returns the
new state and whether a rotation occurred. -/
def sinkWrite (s : SizeSink) (bytes : List Nat) : SizeSink × Bool :=
  if passsizemode s.current_size s.threshold bytes.length then
    ({ threshold := s.threshold, current_size := bytes.length, active := bytes,
       archives := s.archives ++ [s.active] }, true)
  else
    ({ threshold := s.threshold, current_size := s.current_size + bytes.length,
       active := s.active ++ bytes, archives := s.archives }, false)

theorem fsLookup_fsSet_self (fs : Fs) (p : String) (c : List Nat) :
    fsLookup (fsSet fs p c) p = some c := by
  induction fs with
  | nil => simp [fsSet, fsLookup]
  | cons hd rest ih =>
      obtain ⟨q, d⟩ := hd
      by_cases h : q = p
      · simp [fsSet, h, fsLookup]
      · simp [fsSet, h, fsLookup, ih]

theorem fsLookup_fsSet_ne (fs : Fs) (p q : String) (c : List Nat) (h : q ≠ p) :
    fsLookup (fsSet fs p c) q = fsLookup fs q := by
  induction fs with
  | nil => simp [fsSet, fsLookup, Ne.symm h]
  | cons hd rest ih =>
      obtain ⟨r, d⟩ := hd
      by_cases hr : r = p
      · subst hr
        simp [fsSet, fsLookup, Ne.symm h]
      · simp [fsSet, hr, fsLookup, ih]

theorem fsLookup_fsRemove_self (fs : Fs) (p : String) :
    fsLookup (fsRemove fs p) p = none := by
  induction fs with
  | nil => simp [fsRemove, fsLookup]
  | cons hd rest ih =>
      obtain ⟨q, d⟩ := hd
      by_cases h : q = p
      · simp [fsRemove, h, ih]
      · simp [fsRemove, h, fsLookup, ih]

theorem fsLookup_fsRemove_ne (fs : Fs) (p q : String) (h : q ≠ p) :
    fsLookup (fsRemove fs p) q = fsLookup fs q := by
  induction fs with
  | nil => simp [fsRemove]
  | cons hd rest ih =>
      obtain ⟨r, d⟩ := hd
      by_cases hr : r = p
      · subst hr
        simp [fsRemove, fsLookup, Ne.symm h, ih]
      · simp [fsRemove, hr, fsLookup, ih]

/-- A path is never equal to itself with the archive extension appended. -/
theorem ne_append_gz (f : String) : f ≠ f ++ ".gz" := by
  intro h
  have hlen := congrArg String.length h
  rw [String.length_append] at hlen
  have h3 : String.length ".gz" = 3 := rfl
  omega

theorem dtFromTimestamp_epoch : dtFromTimestamp 0 = ⟨1970, 1, 1, 0, 0, 0⟩ := by decide

theorem dtFromTimestamp_sample : dtFromTimestamp 1720000000 = ⟨2024, 7, 3, 9, 46, 40⟩ := by
  decide

theorem fsSet_fsSet (fs : Fs) (p : String) (c d : List Nat) :
    fsSet (fsSet fs p c) p d = fsSet fs p d := by
  induction fs with
  | nil => simp [fsSet]
  | cons hd rest ih =>
      obtain ⟨q, e⟩ := hd
      by_cases h : q = p
      · simp [fsSet, h]
      · simp [fsSet, h, ih]

theorem gzip_failure_lookup (encode : List Nat → List Nat) (o : IoOracle) (fs : Fs)
    (filename : String)
    (h : o.openOk = false ∨ o.copyOk = false ∨ o.finishOk = false ∨ o.createOk = false ∨
      o.writeFail ≠ none) :
    fsLookup (gzip encode o fs filename).2 filename = fsLookup fs filename := by
  have hne := ne_append_gz filename
  cases hl : fsLookup fs filename with
  | none => simp [gzip, hl]
  | some content =>
      cases ho : o.openOk <;> cases hc : o.copyOk <;> cases hf : o.finishOk <;>
        cases hcr : o.createOk <;> cases hw : o.writeFail <;>
        simp_all [gzip, fsLookup_fsSet_ne, fsSet_fsSet]

theorem async_gzip_failure_lookup (encode : List Nat → List Nat) (o : IoOracle) (fs : Fs)
    (filename : String)
    (h : o.openOk = false ∨ o.copyOk = false ∨ o.finishOk = false ∨ o.createOk = false ∨
      o.writeFail ≠ none) :
    fsLookup (async_gzip encode o fs filename).2 filename = fsLookup fs filename := by
  have hne := ne_append_gz filename
  cases hl : fsLookup fs filename with
  | none => simp [async_gzip, hl]
  | some content =>
      cases ho : o.openOk <;> cases hc : o.copyOk <;> cases hf : o.finishOk <;>
        cases hcr : o.createOk <;> cases hw : o.writeFail <;>
        simp_all [async_gzip, fsLookup_fsSet_ne, fsSet_fsSet]

theorem passtimemode_hour_unfold (s : Nat) (now : CalTime) :
    passtimemode s MODE.HOUR now = decide ((dtFromTimestamp s).hour < now.hour) := rfl

/-- C1: for every start time and every mode in HOUR, DAY, MONTH, the time-mode
rotation check reports that rotation is due if and only if the current time's
calendar field named by the mode (hour, day, month respectively) is strictly
greater than the same field of the start time — the check consults no other
field, so rollovers of the larger unit are not normalized. -/
theorem passtimemode_iff_field_gt (startsec : Nat) (now : CalTime) :
    (passtimemode startsec MODE.HOUR now = true ↔
        (dtFromTimestamp startsec).hour < now.hour)
    ∧ (passtimemode startsec MODE.DAY now = true ↔
        (dtFromTimestamp startsec).day < now.day)
    ∧ (passtimemode startsec MODE.MONTH now = true ↔
        (dtFromTimestamp startsec).month < now.month) :=
  ⟨decide_eq_true_iff, decide_eq_true_iff, decide_eq_true_iff⟩

/-- C6: under hour mode, a sink opened at hour 23 and checked at hour 0 of the
next day (indeed at hour 0 of any later instant) is not rotated by the
hour-mode comparison: the check returns false outright, regardless of the
day fields. -/
theorem passtimemode_hour_rollover (startsec : Nat) (now : CalTime)
    (hstart : (dtFromTimestamp startsec).hour = 23) (hnow : now.hour = 0) :
    passtimemode startsec MODE.HOUR now = false := by
  rw [passtimemode_hour_unfold, hstart, hnow]
  rfl

theorem passtimemode_hour_rollover_witness :
    (dtFromTimestamp 82800).hour = 23 ∧
      passtimemode 82800 MODE.HOUR ⟨1970, 1, 2, 0, 0, 0⟩ = false :=
  ⟨by decide, passtimemode_hour_rollover 82800 ⟨1970, 1, 2, 0, 0, 0⟩ (by decide) rfl⟩

/-- C4: for every opening timestamp and mode, the time-mode backup stamp is
computed from `startsec` (the start of the rotated-out window; the function
takes no other time input) and equals the spec's stamp format: `YYYYMMDDHH`
for hour mode, `YYYYMMDD` for day mode, `YYYYMM` for month mode, over the
calendar fields of `startsec`. -/
theorem getbackup_with_time_eq_stampSpec (startsec : Nat) (timemode : MODE) :
    getbackup_with_time startsec timemode = stampSpec (dtFromTimestamp startsec) timemode := by
  cases timemode <;> rfl

/-- C7: the backup-name computation is deterministic — two calls with equal
timestamp and mode inputs return the same name string. -/
theorem getbackup_with_time_deterministic (s1 s2 : Nat) (m1 m2 : MODE)
    (hs : s1 = s2) (hm : m1 = m2) :
    getbackup_with_time s1 m1 = getbackup_with_time s2 m2 := by
  subst hs
  subst hm
  rfl

theorem getbackup_with_time_deterministic_witness :
    getbackup_with_time 1720000000 MODE.DAY = getbackup_with_time 1720000000 MODE.DAY :=
  getbackup_with_time_deterministic 1720000000 1720000000 MODE.DAY MODE.DAY rfl rfl

/-- C2: both compression routines delete the original source file only after
the compressed output has been written successfully: any failure of opening,
reading, compressing, creating or writing leaves the original file's entry
unchanged, and conversely a change to the original's entry can only happen
when every step succeeded. -/
theorem gzip_deletes_original_only_after_success (encode : List Nat → List Nat)
    (o : IoOracle) (fs : Fs) (filename : String) :
    ((o.openOk = false ∨ o.copyOk = false ∨ o.finishOk = false ∨ o.createOk = false ∨
        o.writeFail ≠ none) →
      fsLookup (gzip encode o fs filename).2 filename = fsLookup fs filename ∧
      fsLookup (async_gzip encode o fs filename).2 filename = fsLookup fs filename)
    ∧ (fsLookup (gzip encode o fs filename).2 filename ≠ fsLookup fs filename →
      o.openOk = true ∧ o.copyOk = true ∧ o.finishOk = true ∧ o.createOk = true ∧
        o.writeFail = none)
    ∧ (fsLookup (async_gzip encode o fs filename).2 filename ≠ fsLookup fs filename →
      o.openOk = true ∧ o.copyOk = true ∧ o.finishOk = true ∧ o.createOk = true ∧
        o.writeFail = none) := by
  refine ⟨fun h => ⟨gzip_failure_lookup encode o fs filename h,
    async_gzip_failure_lookup encode o fs filename h⟩, fun hch => ?_, fun hch => ?_⟩
  · cases ho : o.openOk <;> cases hc : o.copyOk <;> cases hf : o.finishOk <;>
      cases hcr : o.createOk <;> cases hw : o.writeFail
    all_goals first
      | exact ⟨rfl, rfl, rfl, rfl, rfl⟩
      | exact absurd (gzip_failure_lookup encode o fs filename
          (by simp [ho, hc, hf, hcr, hw])) hch
  · cases ho : o.openOk <;> cases hc : o.copyOk <;> cases hf : o.finishOk <;>
      cases hcr : o.createOk <;> cases hw : o.writeFail
    all_goals first
      | exact ⟨rfl, rfl, rfl, rfl, rfl⟩
      | exact absurd (async_gzip_failure_lookup encode o fs filename
          (by simp [ho, hc, hf, hcr, hw])) hch

theorem gzip_deletes_original_only_after_success_witness :
    fsLookup (gzip (fun x => x) ⟨false, true, true, true, none⟩ [("f", [1, 2, 3])] "f").2 "f" =
      fsLookup [("f", [1, 2, 3])] "f" :=
  ((gzip_deletes_original_only_after_success (fun x => x) ⟨false, true, true, true, none⟩
      [("f", [1, 2, 3])] "f").1 (Or.inl rfl)).1

/-- C5: on a fully successful run, both compression routines write the
compressed output to the source path with ".gz" appended and remove the
uncompressed source file. -/
theorem gzip_success_output_and_removal (encode : List Nat → List Nat) (o : IoOracle)
    (fs : Fs) (filename : String) (content : List Nat)
    (hl : fsLookup fs filename = some content) (ho : o.openOk = true)
    (hc : o.copyOk = true) (hf : o.finishOk = true) (hcr : o.createOk = true)
    (hw : o.writeFail = none) :
    fsLookup (gzip encode o fs filename).2 (filename ++ ".gz") = some (encode content) ∧
    fsLookup (gzip encode o fs filename).2 filename = none ∧
    fsLookup (async_gzip encode o fs filename).2 (filename ++ ".gz") = some (encode content) ∧
    fsLookup (async_gzip encode o fs filename).2 filename = none := by
  have hne := ne_append_gz filename
  have hne2 : filename ++ ".gz" ≠ filename := fun h => hne h.symm
  simp only [gzip, async_gzip, hl, ho, hc, hf, hcr, hw]
  refine ⟨?_, ?_, ?_, ?_⟩ <;>
    simp [fsLookup_fsRemove_self, fsLookup_fsRemove_ne _ _ _ hne2, fsSet_fsSet,
      fsLookup_fsSet_self]

theorem gzip_success_output_and_removal_witness :
    fsLookup (gzip (fun x => 0 :: x) ⟨true, true, true, true, none⟩ [("f", [1, 2])] "f").2
        ("f" ++ ".gz") = some [0, 1, 2] :=
  (gzip_success_output_and_removal (fun x => 0 :: x) ⟨true, true, true, true, none⟩
      [("f", [1, 2])] "f" [1, 2] rfl rfl rfl rfl rfl rfl).1

/-- C10: gzip returns Ok even when the final write of the compressed data
fails — the write's error value is only consulted to suppress deletion of the
original file, never propagated to the caller. -/
theorem gzip_ok_on_write_failure (encode : List Nat → List Nat) (o : IoOracle)
    (fs : Fs) (filename : String) (content : List Nat) (k : Nat)
    (hl : fsLookup fs filename = some content) (ho : o.openOk = true)
    (hc : o.copyOk = true) (hf : o.finishOk = true) (hcr : o.createOk = true)
    (hw : o.writeFail = some k) :
    (gzip encode o fs filename).1 = RustResult.ok ∧
    fsLookup (gzip encode o fs filename).2 filename = some content := by
  have hne := ne_append_gz filename
  simp only [gzip, hl, ho, hc, hf, hcr, hw]
  exact ⟨rfl, by simp [fsLookup_fsSet_ne _ _ _ _ hne, hl, fsSet_fsSet]⟩

theorem gzip_ok_on_write_failure_witness :
    (gzip (fun x => x) ⟨true, true, true, true, some 0⟩ [("f", [1])] "f").1 = RustResult.ok :=
  (gzip_ok_on_write_failure (fun x => x) ⟨true, true, true, true, some 0⟩
      [("f", [1])] "f" [1] 0 rfl rfl rfl rfl rfl rfl).1

/-- C3 counterexample: with every step up to the final write succeeding and the
final write failing after one byte, gzip leaves a partial compressed artifact
"f.gz" on disk (the claim says no partial artifact is left). -/
theorem gzip_partial_artifact_cex :
    fsLookup (gzip (fun x => x) ⟨true, true, true, true, some 1⟩ [("f", [7, 8, 9])] "f").2
        ("f" ++ ".gz") = some [7] ∧
    fsLookup ([("f", [7, 8, 9])] : Fs) ("f" ++ ".gz") = none :=
  ⟨rfl, rfl⟩

/-- C3 amended: if opening, reading or compressing fails — that is, any
failure before the output file is created — the filesystem is unchanged, so
no partial artifact exists and the original is untouched; but if the final
write fails after the output file was created, the partially written
compressed output remains on disk at `filename ++ ".gz"` (it is not
discarded), while the original file still remains untouched. Holds for both
gzip and async_gzip. -/
theorem gzip_failure_artifact_effects (encode : List Nat → List Nat) (o : IoOracle)
    (fs : Fs) (filename : String) :
    ((o.openOk = false ∨ o.copyOk = false ∨ o.finishOk = false ∨ o.createOk = false) →
      (gzip encode o fs filename).2 = fs ∧ (async_gzip encode o fs filename).2 = fs)
    ∧ (∀ content k, fsLookup fs filename = some content → o.openOk = true →
        o.copyOk = true → o.finishOk = true → o.createOk = true → o.writeFail = some k →
        fsLookup (gzip encode o fs filename).2 (filename ++ ".gz") =
          some ((encode content).take k) ∧
        fsLookup (gzip encode o fs filename).2 filename = some content ∧
        fsLookup (async_gzip encode o fs filename).2 (filename ++ ".gz") =
          some ((encode content).take k) ∧
        fsLookup (async_gzip encode o fs filename).2 filename = some content) := by
  constructor
  · intro h
    cases hl : fsLookup fs filename with
    | none => simp [gzip, async_gzip, hl]
    | some content =>
        cases ho : o.openOk <;> cases hc : o.copyOk <;> cases hf : o.finishOk <;>
          cases hcr : o.createOk <;> simp_all [gzip, async_gzip]
  · intro content k hl ho hc hf hcr hw
    have hne := ne_append_gz filename
    simp only [gzip, async_gzip, hl, ho, hc, hf, hcr, hw]
    refine ⟨?_, ?_, ?_, ?_⟩ <;>
      simp [fsLookup_fsSet_self, fsLookup_fsSet_ne _ _ _ _ hne, hl, fsSet_fsSet]

theorem gzip_failure_artifact_effects_witness :
    fsLookup (gzip (fun x => x) ⟨true, true, true, true, some 2⟩ [("f", [7, 8, 9])] "f").2
        ("f" ++ ".gz") = some [7, 8] :=
  (((gzip_failure_artifact_effects (fun x => x) ⟨true, true, true, true, some 2⟩
      [("f", [7, 8, 9])] "f").2) [7, 8, 9] 2 rfl rfl rfl rfl rfl rfl).1

/-- C8: in size mode, rotation is due before a write of length L exactly when
current_size + L would exceed the threshold; and in the spec's scenario
(threshold 100, two 60-byte writes) exactly one rotation occurs, immediately
before the second write, leaving the first 60 bytes in the archive and the
second 60 bytes in the new active file. Uses the size-mode sink modelled
from the spec (`passsizemode`, `sinkWrite`). -/
theorem sizemode_rotation_scenario :
    (∀ (s : SizeSink) (bytes : List Nat),
      (sinkWrite s bytes).2 = true ↔ s.threshold < s.current_size + bytes.length)
    ∧ ∀ b1 b2 : List Nat, b1.length = 60 → b2.length = 60 →
      (sinkWrite ⟨100, 0, [], []⟩ b1).2 = false ∧
      (sinkWrite (sinkWrite ⟨100, 0, [], []⟩ b1).1 b2).2 = true ∧
      (sinkWrite (sinkWrite ⟨100, 0, [], []⟩ b1).1 b2).1.archives = [b1] ∧
      (sinkWrite (sinkWrite ⟨100, 0, [], []⟩ b1).1 b2).1.active = b2 := by
  constructor
  · intro s bytes
    by_cases h : s.threshold < s.current_size + bytes.length <;>
      simp [sinkWrite, passsizemode, h]
  · intro b1 b2 h1 h2
    simp [sinkWrite, passsizemode, h1, h2]

theorem sizemode_rotation_scenario_witness :
    (sinkWrite (sinkWrite ⟨100, 0, [], []⟩ (List.replicate 60 1)).1
        (List.replicate 60 2)).2 = true :=
  ((sizemode_rotation_scenario.2 (List.replicate 60 1) (List.replicate 60 2)
      (by simp) (by simp)).2).1

theorem pflGo_placeholder_close (level time file message : List Char) :
    ∀ (name p cs res : List Char), rbrace ∉ name →
      pflGo level time file message (name ++ rbrace :: cs) true p res =
        pflGo level time file message cs false []
          (res ++ phSubst level time file message (p ++ name)) := by
  intro name
  induction name with
  | nil =>
      intro p cs res _
      simp [pflGo]
  | cons c name ih =>
      intro p cs res hnotin
      rw [List.mem_cons, not_or] at hnotin
      obtain ⟨h1, h2⟩ := hnotin
      have hcr : c ≠ rbrace := fun h => h1 h.symm
      simp only [List.cons_append, pflGo, hcr, if_false, ite_true, if_true]
      show pflGo level time file message (name ++ rbrace :: cs) true (p ++ [c]) res =
        pflGo level time file message cs false []
          (res ++ phSubst level time file message (p ++ c :: name))
      rw [ih (p ++ [c]) cs res h2]
      simp [List.append_assoc]

theorem pflGo_unclosed (level time file message : List Char) :
    ∀ (cs p res : List Char), rbrace ∉ cs →
      pflGo level time file message cs true p res = res := by
  intro cs
  induction cs with
  | nil =>
      intro p res _
      rfl
  | cons c rest ih =>
      intro p res hnotin
      rw [List.mem_cons, not_or] at hnotin
      obtain ⟨h1, h2⟩ := hnotin
      have hcr : c ≠ rbrace := fun h => h1 h.symm
      simp [pflGo, hcr, ih _ _ h2]

theorem phSubst_no_lbrace (level time file message ph : List Char)
    (hl : lbrace ∉ level) (ht : lbrace ∉ time) (hf : lbrace ∉ file)
    (hm : lbrace ∉ message) : lbrace ∉ phSubst level time file message ph := by
  unfold phSubst
  split_ifs <;> first | exact hl | exact ht | exact hf | exact hm | simp

theorem pflGo_no_lbrace (level time file message : List Char)
    (hl : lbrace ∉ level) (ht : lbrace ∉ time) (hf : lbrace ∉ file)
    (hm : lbrace ∉ message) :
    ∀ (cs : List Char) (inPh : Bool) (ph res : List Char), lbrace ∉ res →
      lbrace ∉ pflGo level time file message cs inPh ph res := by
  intro cs
  induction cs with
  | nil =>
      intro inPh ph res hres
      exact hres
  | cons c rest ih =>
      intro inPh ph res hres
      cases inPh with
      | false =>
          by_cases hc : c = lbrace
          · subst hc
            simpa [pflGo] using ih true ph res hres
          · have hres2 : lbrace ∉ res ++ [c] := by
              simp only [List.mem_append, List.mem_singleton, not_or]
              exact ⟨hres, fun h => hc h.symm⟩
            simpa [pflGo, hc] using ih false ph (res ++ [c]) hres2
      | true =>
          by_cases hc : c = rbrace
          · subst hc
            have hres2 : lbrace ∉ res ++ phSubst level time file message ph := by
              simp only [List.mem_append, not_or]
              exact ⟨hres, phSubst_no_lbrace level time file message ph hl ht hf hm⟩
            simpa [pflGo] using ih false [] (res ++ phSubst level time file message ph) hres2
          · simpa [pflGo, hc] using ih true (ph ++ [c]) res hres

/-- C9 counterexample: a bare closing brace outside any placeholder is copied
through to the output verbatim, so brace characters from the format string do
appear in the output, contrary to the claim. -/
theorem pfl_rbrace_in_output_cex :
    parseFmt [rbrace] [] [] [] [] = [rbrace] ∧
      rbrace ∈ parseFmt [rbrace] [] [] [] [] := by
  constructor
  · rfl
  · decide

/-- C9 amended: in the format loop of parse_and_format_log, (1) a placeholder
whose name is not level/time/file/message contributes nothing to the output —
the braces and the unknown name are both dropped; (2) every character after
an unmatched opening brace that is never closed is dropped entirely; (3) the
opening-brace character never appears in the output when the substituted
values contain none; but a closing brace outside any placeholder is copied
through to the output (see the counterexample), so it is not true that all
brace characters from the format string are dropped. -/
theorem pfl_amended :
    (∀ level time file message name rest : List Char, rbrace ∉ name →
      name ≠ "level".data → name ≠ "time".data → name ≠ "file".data →
      name ≠ "message".data →
      parseFmt (lbrace :: (name ++ rbrace :: rest)) level time file message =
        parseFmt rest level time file message)
    ∧ (∀ level time file message tail ph res : List Char, rbrace ∉ tail →
      pflGo level time file message (lbrace :: tail) false ph res = res)
    ∧ (∀ fmt level time file message : List Char, lbrace ∉ level → lbrace ∉ time →
      lbrace ∉ file → lbrace ∉ message →
      lbrace ∉ parseFmt fmt level time file message) := by
  refine ⟨?_, ?_, ?_⟩
  · intro level time file message name rest hnb h1 h2 h3 h4
    unfold parseFmt
    rw [show pflGo level time file message (lbrace :: (name ++ rbrace :: rest)) false [] [] =
        pflGo level time file message (name ++ rbrace :: rest) true [] [] from by
      simp [pflGo]]
    rw [pflGo_placeholder_close level time file message name [] rest [] hnb]
    simp [phSubst, h1, h2, h3, h4]
  · intro level time file message tail ph res hnb
    rw [show pflGo level time file message (lbrace :: tail) false ph res =
        pflGo level time file message tail true ph res from by simp [pflGo]]
    exact pflGo_unclosed level time file message tail ph res hnb
  · intro fmt level time file message hl ht hf hm
    exact pflGo_no_lbrace level time file message hl ht hf hm fmt false [] [] (by simp)

theorem pfl_amended_witness :
    parseFmt (lbrace :: ("xx".data ++ rbrace :: "ab".data)) "L".data "T".data "F".data
        "M".data = parseFmt "ab".data "L".data "T".data "F".data "M".data :=
  pfl_amended.1 "L".data "T".data "F".data "M".data "xx".data "ab".data (by decide)
    (by decide) (by decide) (by decide) (by decide)
